import Mathlib

/-!
Verification of the DevLake GitHub CI/CD job collector
(`backend/plugins/github/tasks/cicd_job_collector.go`), the job-extraction
time normalization exercised by `TestExtractJobs_ZeroTimeHandling`, and the
pipeline UI subtask status derivation
(`config-ui/src/routes/pipeline/components/{pipeline-overview,subtask-progress}.tsx`).

Go strings are embedded as `List Char` (all strings involved are ASCII, so
byte indexing and char indexing coincide).  Go `map[int64]string` is embedded
as an association list queried by first match.  The generic collection
framework (`api.NewStatefulApiCollector`, `InitCollector`, `Execute`, the
DAL, the pipeline runner) is not part of this repository snapshot; where its
behavior is needed it is modelled from the specification, and each such
definition carries a doc comment starting with `Modelled from the spec:`.
-/

namespace DevLake

/-! ## Go string scanning primitives

`prefixOf`, `findOcc`, `splitGo` and `containsSub` embed the fragments of
Go's `strings` package used by the collector: `strings.Contains` and
`strings.Split` (split around every leftmost non-overlapping occurrence of a
non-empty separator). -/

/-- Boolean prefix test on character lists: `prefixOf p s` is true when `p`
is an initial segment of `s`. -/
def prefixOf : List Char → List Char → Bool
  | [], _ => true
  | _ :: _, [] => false
  | a :: as, b :: bs => a == b && prefixOf as bs

/-- Index of the first occurrence of `pat` in `s`, if any. -/
def findOcc (pat : List Char) : List Char → Option Nat
  | [] => if prefixOf pat [] then some 0 else none
  | c :: cs => if prefixOf pat (c :: cs) then some 0 else (findOcc pat cs).map (· + 1)

/-- Go `strings.Contains(s, sub)`. -/
def containsSub (s sub : List Char) : Bool :=
  (findOcc sub s).isSome

/-- Fuel-driven worker for `splitGo`; the fuel strictly exceeds the length of
the list being split, which suffices for a non-empty separator. -/
def splitGoF (sep : List Char) : Nat → List Char → List (List Char)
  | 0, s => [s]
  | Nat.succ fuel, s =>
    match findOcc sep s with
    | none => [s]
    | some i => s.take i :: splitGoF sep fuel (s.drop (i + sep.length))

/-- Go `strings.Split(s, sep)` for a non-empty separator: split around every
leftmost non-overlapping occurrence of `sep`. -/
def splitGo (sep s : List Char) : List (List Char) :=
  splitGoF sep (s.length + 1) s

/-! ## Collector state (`CollectJobs`, lines 92-96)

`failedRuns`, `failedRunsErrors`, `totalRuns` and `currentRunId` are the
local variables of `CollectJobs`; `warnLogs` counts `logger.Warn` calls. -/

/-- A Go error value, identified with its message string. -/
abbrev GoError := List Char

/-- Embedding of Go `map[int64]string`: association list, first match wins. -/
abbrev ErrMap := List (Int × List Char)

/-- Go map assignment `m[k] = v`. -/
def mapInsert (m : ErrMap) (k : Int) (v : List Char) : ErrMap :=
  (k, v) :: m

/-- Go map read `m[k]` (`none` when the key is absent). -/
def mapLookup (m : ErrMap) (k : Int) : Option (List Char) :=
  (m.find? (fun p => decide (p.1 = k))).map (·.2)

/-- The mutable locals of `CollectJobs` threaded through the hooks
(source lines 92-96), plus a counter of `logger.Warn` calls. -/
structure CollectorState where
  failedRuns : List Int
  failedRunsErrors : ErrMap
  totalRuns : Nat
  currentRunId : Int
  warnLogs : Nat
deriving DecidableEq, Repr

/-- Initial values of the tracking variables (source lines 93-96). -/
def initState : CollectorState :=
  { failedRuns := [], failedRunsErrors := [], totalRuns := 0, currentRunId := 0
    warnLogs := 0 }

/-- The parts of an `*http.Response` the `AfterResponse` hook inspects:
status code and (readable) body. `body = none` models a nil or unreadable
body. -/
structure HttpResponse where
  statusCode : Nat
  body : Option (List Char)
deriving DecidableEq, Repr

def reason404 : List Char := "404 Not Found - Run likely deleted".data

def truncSuffix : List Char := "... (truncated)".data

def unknownErrorBody : List Char := "unknown error".data

def serverErrorTag : List Char := " Server Error: ".data

/-- Decimal rendering of a natural number, as Go `fmt.Sprintf("%d", n)`. -/
def natChars (n : Nat) : List Char := (Nat.repr n).data

/-- The `AfterResponse` hook of `CollectJobs` (source lines 133-168):
counts the response, downgrades 404 and 5xx responses to per-run failures
(recording the run id and a reason, and logging a warning), and returns nil
in every case. -/
def afterResponse (st : CollectorState) (res : HttpResponse) :
    Option GoError × CollectorState :=
  let st := { st with totalRuns := st.totalRuns + 1 }
  if res.statusCode = 404 then
    (none, { st with
      failedRuns := st.failedRuns ++ [st.currentRunId]
      failedRunsErrors := mapInsert st.failedRunsErrors st.currentRunId reason404
      warnLogs := st.warnLogs + 1 })
  else if 500 ≤ res.statusCode then
    let errorBody : List Char :=
      match res.body with
      | some bodyBytes =>
        if bodyBytes.length > 300 then bodyBytes.take 300 ++ truncSuffix else bodyBytes
      | none => unknownErrorBody
    (none, { st with
      failedRuns := st.failedRuns ++ [st.currentRunId]
      failedRunsErrors := mapInsert st.failedRunsErrors st.currentRunId
        (natChars res.statusCode ++ serverErrorTag ++ errorBody)
      warnLogs := st.warnLogs + 1 })
  else
    (none, st)

/-! ## Post-`Execute` error handling (`CollectJobs`, lines 174-226) -/

def runsSep : List Char := "/actions/runs/".data

def slashSep : List Char := "/".data

def retryExceededPat : List Char := "Retry exceeded".data

def timesCallingPat : List Char := "times calling".data

def retryFailureTag : List Char := "Retry failure: ".data

/-- The retry-error test of source line 180:
`strings.Contains(errorStr, "Retry exceeded") && strings.Contains(errorStr, "times calling")`. -/
def retryMatch (errorStr : List Char) : Bool :=
  containsSub errorStr retryExceededPat && containsSub errorStr timesCallingPat

/-- Run-id extraction of source lines 183-192: after the first
`"/actions/runs/"`, up to the next `"/"`, via two `strings.Split` calls. -/
def parseRunId (errorStr : List Char) : List Char :=
  if containsSub errorStr runsSep then
    let parts := splitGo runsSep errorStr
    if parts.length > 1 then
      let runParts := splitGo slashSep (parts.getD 1 [])
      if runParts.length > 0 then runParts.getD 0 [] else []
    else []
  else []

/-- Source lines 177-207 and 225: the handling of the value returned by
`apiCollector.Execute()`, producing the value `CollectJobs` returns (first
component) and the final tracking state.  Note that in the retry-exhaustion
branch the original `err` is still the value reached by the final
`return err` at line 225. -/
def handleExecuteError (st : CollectorState) (err : Option GoError) :
    Option GoError × CollectorState :=
  match err with
  | none => (none, st)
  | some e =>
    if retryMatch e then
      let runIdStr := parseRunId e
      let st := { st with warnLogs := st.warnLogs + 1 }
      let st :=
        if runIdStr ≠ [] then
          { st with failedRunsErrors := mapInsert st.failedRunsErrors 0 (retryFailureTag ++ e) }
        else st
      (some e, st)
    else
      (some e, st)

/-! ## Job-extraction time normalization (claim C9)

The extraction guard replicated by `TestExtractJobs_ZeroTimeHandling`:
`if t != nil && !t.IsZero() && t.Year() > 0 { out = t }`. -/

/-- A Go `time.Time` value, reduced to the civil fields the guard inspects.
`time.Time.IsZero` holds exactly for January 1, year 1, 00:00:00 UTC. -/
structure GoTime where
  year : Int
  month : Nat
  day : Nat
  hour : Nat
  minute : Nat
  second : Nat
  nsec : Nat
deriving DecidableEq, Repr

/-- Go `time.Time.IsZero`: the zero time is January 1 of year 1 at
00:00:00.000000000 UTC. -/
def GoTime.isZero (t : GoTime) : Bool :=
  t.year == 1 && t.month == 1 && t.day == 1 &&
    t.hour == 0 && t.minute == 0 && t.second == 0 && t.nsec == 0

/-- A GitHub job as far as the time normalization is concerned. -/
structure GithubJob where
  id : Int
  startedAt : Option GoTime
  completedAt : Option GoTime
deriving DecidableEq, Repr

/-- The shared guard stated on its own: keep the timestamp only when it is
non-nil, not Go's zero time, and has a positive year. -/
def timeOrNil (t : Option GoTime) : Option GoTime :=
  match t with
  | some x => if !x.isZero && decide (0 < x.year) then some x else none
  | none => none

/-- The extraction normalization applied to `StartedAt` and `CompletedAt`:
two independent `if` statements over locals initialized to nil
(test lines 96-102). -/
def extractJobTimes (job : GithubJob) : Option GoTime × Option GoTime :=
  let startedAt : Option GoTime :=
    match job.startedAt with
    | some t => if !t.isZero && decide (0 < t.year) then some t else none
    | none => none
  let completedAt : Option GoTime :=
    match job.completedAt with
    | some t => if !t.isZero && decide (0 < t.year) then some t else none
    | none => none
  (startedAt, completedAt)

/-- The year-0000 timestamp produced by JSON-parsing `"0000-01-01T00:00:00Z"`
(test line 31). -/
def year0Time : GoTime := { year := 0, month := 1, day := 1, hour := 0, minute := 0, second := 0, nsec := 0 }

/-- Go's zero time (test line 32). -/
def goZeroTime : GoTime := { year := 1, month := 1, day := 1, hour := 0, minute := 0, second := 0, nsec := 0 }

/-- A valid timestamp (test line 33). -/
def validTime : GoTime := { year := 2023, month := 1, day := 15, hour := 10, minute := 30, second := 0, nsec := 0 }

/-! ## Pipeline UI subtask status (claim C10) -/

/-- The fields of a subtask detail record that the status derivation reads.
Optional fields model JS `undefined`. -/
structure SubtaskDetail where
  isFailed : Option Bool
  finishedAt : Option (List Char)
  beganAt : Option (List Char)
deriving DecidableEq, Repr

/-- JS truthiness of an optional boolean field. -/
def truthyBool : Option Bool → Bool
  | some b => b
  | none => false

/-- JS truthiness of an optional string field (the empty string is falsy). -/
def truthyStr : Option (List Char) → Bool
  | some s => !s.isEmpty
  | none => false

/-- Status derivation of `PipelineOverview` (pipeline-overview.tsx line 149):
`detail.isFailed ? 'FAILED' : detail.finishedAt ? 'COMPLETED' : detail.beganAt ? 'RUNNING' : 'PENDING'`. -/
def pipelineOverviewStatus (d : SubtaskDetail) : List Char :=
  if truthyBool d.isFailed then "FAILED".data
  else if truthyStr d.finishedAt then "COMPLETED".data
  else if truthyStr d.beganAt then "RUNNING".data
  else "PENDING".data

/-- Status derivation of `SubtaskProgress` (subtask-progress.tsx line 174):
`detail.isFailed ? 'FAILED' : detail.finishedAt ? 'COMPLETED' : detail.beganAt ? 'RUNNING' : 'PENDING'`. -/
def subtaskProgressStatus (d : SubtaskDetail) : List Char :=
  if truthyBool d.isFailed then "FAILED".data
  else if truthyStr d.finishedAt then "COMPLETED".data
  else if truthyStr d.beganAt then "RUNNING".data
  else "PENDING".data

/-! ## Cursor over stored `GithubRun` rows (claim C3, source lines 72-90)

The `dal.Where` clauses are embedded as row predicates; `db.Cursor` over a
table with those clauses is embedded as `List.filter` (the SQL semantics of
`SELECT ... WHERE`). -/

/-- The columns of a stored `GithubRun` row that the clauses read.
Timestamps are embedded as integers ordered like `github_updated_at`. -/
structure GithubRunRow where
  id : Int
  repoId : Int
  connectionId : Int
  githubUpdatedAt : Int
deriving DecidableEq, Repr

/-- The task options the clauses read (`data.Options.GithubId`,
`data.Options.ConnectionId`). -/
structure CollectOptions where
  githubId : Int
  connectionId : Int
deriving DecidableEq, Repr

/-- The base clause (source lines 75-78):
`repo_id = ? AND connection_id = ?`. -/
def baseWhere (opts : CollectOptions) (row : GithubRunRow) : Bool :=
  decide (row.repoId = opts.githubId) && decide (row.connectionId = opts.connectionId)

/-- The clause list built at source lines 72-82: the base clause, plus
`github_updated_at > ?` exactly when
`apiCollector.IsIncremental() && apiCollector.GetSince() != nil`. -/
def jobsCursorFilter (opts : CollectOptions) (isIncremental : Bool)
    (since : Option Int) (row : GithubRunRow) : Bool :=
  baseWhere opts row &&
    (match isIncremental, since with
     | true, some t => decide (t < row.githubUpdatedAt)
     | _, _ => true)

/-- The rows the cursor yields: the stored table filtered by the clauses. -/
def cursorRows (table : List GithubRunRow) (opts : CollectOptions)
    (isIncremental : Bool) (since : Option Int) : List GithubRunRow :=
  table.filter (jobsCursorFilter opts isIncremental since)

/-- Modelled from the spec: the stateful API collector issues one HTTP fetch
sequence per input item yielded by the cursor iterator (spec section 4.3), and
the inputs here carry only the selected `id` column (`SimpleGithubRun`). -/
def fetchSequenceIds (table : List GithubRunRow) (opts : CollectOptions)
    (isIncremental : Bool) (since : Option Int) : List Int :=
  (cursorRows table opts isIncremental since).map (·.id)

/-! ## Raw data store (claims C4, C8)

Modelled from the spec: the raw store keys records by
`(table, params, input identity, page ordinal)` and a write replaces any
prior record with the same key (spec sections 3, 4.4). -/

/-- Modelled from the spec: the key of a raw record —
`(table, params, input identity, page ordinal)` (spec section 3). -/
structure RawKey where
  table : List Char
  params : List Char
  inputId : Int
  page : Nat
deriving DecidableEq, Repr

/-- A raw store with payloads of type `α`, as a list of keyed records. -/
abbrev Store (α : Type) := List (RawKey × α)

/-- Whether the store holds a record with key `k`. -/
def containsKey {α : Type} (s : Store α) (k : RawKey) : Bool :=
  s.any (fun p => decide (p.1 = k))

/-- The number of live records with key `k`. -/
def countPerKey {α : Type} (s : Store α) (k : RawKey) : Nat :=
  (s.filter (fun p => decide (p.1 = k))).length

/-- Modelled from the spec: `upsert` — a write replaces any prior record
with the same key, and otherwise appends a new record (spec section 4.4). -/
def upsert {α : Type} (s : Store α) (k : RawKey) (v : α) : Store α :=
  if containsKey s k then s.map (fun p => if p.1 = k then (k, v) else p)
  else s ++ [(k, v)]

/-- One collection run's persistence effect: the page writes applied in
order. -/
def applyWrites {α : Type} (s : Store α) (ws : List (RawKey × α)) : Store α :=
  ws.foldl (fun acc kv => upsert acc kv.1 kv.2) s

/-! ## The collector execution loop, modelled from the spec (claims C2, C4, C7) -/

/-- Modelled from the spec: the disposition of one fetch attempt
(spec sections 4.3, 7): a 2xx response succeeds; a 404, or a 5xx after the
retry budget, is downgraded to an item skip (these are exactly the responses
the source `AfterResponse` hook records and swallows); any other status —
in particular a 4xx other than 404 — is fatal for the stage. -/
inductive Disposition
  | success
  | skipItem
  | fatal
deriving DecidableEq, Repr

/-- Modelled from the spec: classify a status code (spec sections 4.3, 7). -/
def disposition (statusCode : Nat) : Disposition :=
  if 200 ≤ statusCode ∧ statusCode < 300 then .success
  else if statusCode = 404 ∨ 500 ≤ statusCode then .skipItem
  else .fatal

/-- Modelled from the spec: a client error that escalates out of the
collector is not in the retry-exhaustion message format (spec section 7 keeps
`ClientError other 4xx` and `RetryExhausted` distinct). -/
def clientFatalError : GoError := "unexpected client status code".data

/-- The raw table of this subtask (source line 40). -/
def rawJobTable : List Char := "github_api_jobs".data

/-- One HTTP response of the run, with the input run and page that produced
it and the page items the response parser extracts. -/
structure FetchEvent where
  runId : Int
  page : Nat
  statusCode : Nat
  body : Option (List Char)
  items : List (List Char)
deriving DecidableEq, Repr

/-- The raw-store key of a page fetch (spec section 4.4: table, params, input
identity, page ordinal). -/
def eventKey (params : List Char) (e : FetchEvent) : RawKey :=
  { table := rawJobTable, params := params, inputId := e.runId, page := e.page }

/-- Modelled from the spec: `apiCollector.Execute()` — for each response, the
`Query` hook first records the current input's run id (source lines 117-120),
then the `AfterResponse` hook runs (source lines 133-168), then the response
is classified: a success persists the parsed page under its key, a downgraded
failure skips, and a fatal response aborts the run with an error
(spec sections 4.3, 4.5, 7). -/
def executeEvents (params : List Char) :
    CollectorState → Store (List (List Char)) → List FetchEvent →
      Option GoError × CollectorState × Store (List (List Char))
  | st, store, [] => (none, st, store)
  | st, store, e :: es =>
    let st1 := { st with currentRunId := e.runId }
    let st2 := (afterResponse st1 { statusCode := e.statusCode, body := e.body }).2
    match disposition e.statusCode with
    | .success => executeEvents params st2 (upsert store (eventKey params e) e.items) es
    | .skipItem => executeEvents params st2 store es
    | .fatal => (some clientFatalError, st2, store)

/-- The value `CollectJobs` returns and the final state and store: the
execution loop followed by the post-`Execute` error handling of source
lines 174-226. -/
def collectJobsOutcome (params : List Char) (st : CollectorState)
    (store : Store (List (List Char))) (events : List FetchEvent) :
    Option GoError × CollectorState × Store (List (List Char)) :=
  let r := executeEvents params st store events
  let h := handleExecuteError r.2.1 r.1
  (h.1, h.2, r.2.2)

/-- Modelled from the spec: stage status assigned by the runner — a stage
whose entry point returns nil is COMPLETED, one that returns a fatal error is
FAILED (spec section 4.5). -/
inductive StageStatus
  | COMPLETED
  | FAILED
deriving DecidableEq, Repr

/-- Modelled from the spec: map the entry point's returned error to the
stage status (spec section 4.5). -/
def stageStatus (result : Option GoError) : StageStatus :=
  match result with
  | none => .COMPLETED
  | some _ => .FAILED

/-! ## Concrete scenario inputs used by the closed theorems and witnesses -/

/-- A retry-exhaustion error message in the format of source line 182. -/
def retryErrMsg : GoError :=
  "Retry exceeded 3 times calling repos/apache/incubator-devlake/actions/runs/12345/jobs".data

/-- A successful page response for run 1. -/
def okEvent1 : FetchEvent :=
  { runId := 1, page := 1, statusCode := 200, body := none, items := ["jobA".data] }

/-- A 404 response for run 2 (run deleted upstream). -/
def notFoundEvent2 : FetchEvent :=
  { runId := 2, page := 1, statusCode := 404, body := some "Not Found".data, items := [] }

/-- Scenario for claim C2: one success, one 404. -/
def c2Events : List FetchEvent := [okEvent1, notFoundEvent2]

/-- A page of 100 parsed items. -/
def page100 : List (List Char) := List.replicate 100 ("job".data)

/-- Scenario for claim C4: 3 input runs, 2 pages of 100 items each, all
successful. -/
def c4Events : List FetchEvent :=
  [ { runId := 1, page := 1, statusCode := 200, body := none, items := page100 }
  , { runId := 1, page := 2, statusCode := 200, body := none, items := page100 }
  , { runId := 2, page := 1, statusCode := 200, body := none, items := page100 }
  , { runId := 2, page := 2, statusCode := 200, body := none, items := page100 }
  , { runId := 3, page := 1, statusCode := 200, body := none, items := page100 }
  , { runId := 3, page := 2, statusCode := 200, body := none, items := page100 } ]

/-- Message fragments for the claim C5 witness. -/
def c5Pre : List Char := "Retry exceeded 3 times calling repos/a/b".data

def c5Mid : List Char := "12345".data

def c5Post : List Char := "jobs".data

def c5Msg : List Char := c5Pre ++ runsSep ++ c5Mid ++ '/' :: c5Post

/-- Two stored rows for the claim C3 witness: one updated after the
watermark 10, one at the watermark. -/
def c3RowFresh : GithubRunRow :=
  { id := 1, repoId := 7, connectionId := 3, githubUpdatedAt := 20 }

def c3RowStale : GithubRunRow :=
  { id := 2, repoId := 7, connectionId := 3, githubUpdatedAt := 10 }

def c3Table : List GithubRunRow := [c3RowFresh, c3RowStale]

def c3Opts : CollectOptions := { githubId := 7, connectionId := 3 }

/-- A raw key for the claim C8 witness. -/
def c8Key : RawKey := { table := rawJobTable, params := [], inputId := 1, page := 1 }

/-! ## Lemmas on the string scanning primitives -/

theorem prefixOf_nil (p : List Char) : prefixOf p [] = true ↔ p = [] := by
  cases p <;> simp [prefixOf]

theorem prefixOf_length {p s : List Char} (h : prefixOf p s = true) :
    p.length ≤ s.length := by
  induction p generalizing s with
  | nil => simp
  | cons a as ih =>
    cases s with
    | nil => simp [prefixOf] at h
    | cons b bs =>
      simp only [prefixOf, Bool.and_eq_true] at h
      simpa using Nat.succ_le_succ (ih h.2)

theorem prefixOf_append (p t : List Char) : prefixOf p (p ++ t) = true := by
  induction p with
  | nil => simp [prefixOf]
  | cons a as ih => simp [prefixOf, ih]

theorem findOcc_some {pat s : List Char} {i : Nat} (h : findOcc pat s = some i) :
    prefixOf pat (s.drop i) = true ∧ i + pat.length ≤ s.length := by
  induction s generalizing i with
  | nil =>
    simp only [findOcc] at h
    split at h
    · rename_i hp
      cases h
      rw [prefixOf_nil] at hp
      simp [hp, prefixOf]
    · cases h
  | cons c cs ih =>
    simp only [findOcc] at h
    split at h
    · rename_i hp
      cases h
      exact ⟨hp, by simpa using prefixOf_length hp⟩
    · cases hj : findOcc pat cs with
      | none => rw [hj] at h; cases h
      | some j =>
        rw [hj] at h
        simp only [Option.map_some'] at h
        cases h
        rcases ih hj with ⟨h1, h2⟩
        refine ⟨by simpa using h1, ?_⟩
        simp only [List.length_cons]
        omega

theorem findOcc_append_self (pat tail : List Char) (hne : pat ≠ []) :
    findOcc pat (pat ++ tail) = some 0 := by
  cases pat with
  | nil => exact absurd rfl hne
  | cons a as =>
    simp only [findOcc, List.cons_append]
    rw [if_pos]
    exact prefixOf_append (a :: as) tail

/-- First occurrence of a single character pattern `[c]` in `mid ++ c :: rest`
is at `mid.length` when `c` does not occur in `mid`. -/
theorem findOcc_single_append {c : Char} {mid : List Char} (rest : List Char)
    (h : c ∉ mid) : findOcc [c] (mid ++ c :: rest) = some mid.length := by
  induction mid with
  | nil => simp [findOcc, prefixOf]
  | cons m ms ih =>
    have hmc : (c == m) = false := by
      simp only [beq_eq_false_iff_ne, ne_eq]
      intro hcm
      exact h (by simp [hcm])
    simp only [findOcc, List.cons_append, prefixOf, hmc, Bool.false_and, if_neg,
      Bool.false_eq_true, not_false_iff, List.append_eq]
    rw [ih (fun hm => h (List.mem_cons_of_mem _ hm))]
    simp

theorem findOcc_single_none {c : Char} {s : List Char} (h : c ∉ s) :
    findOcc [c] s = none := by
  induction s with
  | nil => simp [findOcc, prefixOf]
  | cons m ms ih =>
    have hmc : (c == m) = false := by
      simp only [beq_eq_false_iff_ne, ne_eq]
      intro hcm
      exact h (by simp [hcm])
    simp only [findOcc, prefixOf, hmc, Bool.false_and, if_neg, Bool.false_eq_true,
      not_false_iff]
    rw [ih (fun hm => h (List.mem_cons_of_mem _ hm))]
    rfl

/-- If the pattern starts with character `c` and `c` does not occur in `mid`,
any occurrence of the pattern in `mid ++ rest` starts at or after
`mid.length`. -/
theorem findOcc_cons_ge {c : Char} {cr mid rest : List Char} {i : Nat}
    (hc : c ∉ mid) (h : findOcc (c :: cr) (mid ++ rest) = some i) :
    mid.length ≤ i := by
  induction mid generalizing i with
  | nil => exact Nat.zero_le _
  | cons m ms ih =>
    have hmc : (c == m) = false := by
      simp only [beq_eq_false_iff_ne, ne_eq]
      intro hcm
      exact hc (by simp [hcm])
    simp only [findOcc, List.cons_append, prefixOf, hmc, Bool.false_and, if_neg,
      Bool.false_eq_true, not_false_iff, List.append_eq] at h
    cases hj : findOcc (c :: cr) (ms ++ rest) with
    | none => rw [hj] at h; cases h
    | some j =>
      rw [hj] at h
      simp only [Option.map_some'] at h
      cases h
      simpa using Nat.succ_le_succ (ih (fun hm => hc (List.mem_cons_of_mem _ hm)) hj)

theorem splitGoF_fuel (sep : List Char) (hsep : sep ≠ []) :
    ∀ f1 f2 s, s.length < f1 → s.length < f2 → splitGoF sep f1 s = splitGoF sep f2 s := by
  intro f1
  induction f1 with
  | zero => intro f2 s h1 _; cases h1
  | succ f1 ih =>
    intro f2 s h1 h2
    cases f2 with
    | zero => cases h2
    | succ f2 =>
      cases hocc : findOcc sep s with
      | none => simp only [splitGoF, hocc]
      | some i =>
        have hb := (findOcc_some hocc).2
        have hlen : (s.drop (i + sep.length)).length < s.length := by
          have hpos : 0 < sep.length := List.length_pos.mpr hsep
          simp only [List.length_drop]
          omega
        simp only [splitGoF, hocc]
        rw [ih f2 (s.drop (i + sep.length)) (by omega) (by omega)]

theorem splitGo_of_none {sep s : List Char} (h : findOcc sep s = none) :
    splitGo sep s = [s] := by
  simp [splitGo, splitGoF, h]

theorem splitGo_of_some {sep s : List Char} {i : Nat} (hsep : sep ≠ [])
    (h : findOcc sep s = some i) :
    splitGo sep s = s.take i :: splitGo sep (s.drop (i + sep.length)) := by
  have hb := (findOcc_some h).2
  have hpos : 0 < sep.length := List.length_pos.mpr hsep
  have step : splitGoF sep (s.length + 1) s
      = s.take i :: splitGoF sep s.length (s.drop (i + sep.length)) := by
    simp only [splitGoF, h]
  have eqfo : splitGoF sep s.length (s.drop (i + sep.length))
      = splitGoF sep ((s.drop (i + sep.length)).length + 1) (s.drop (i + sep.length)) := by
    apply splitGoF_fuel sep hsep
    · simp only [List.length_drop]; omega
    · simp
  calc splitGo sep s = splitGoF sep (s.length + 1) s := rfl
    _ = s.take i :: splitGoF sep s.length (s.drop (i + sep.length)) := step
    _ = s.take i :: splitGo sep (s.drop (i + sep.length)) := by rw [eqfo]; rfl

theorem splitGo_ne_nil (sep s : List Char) : splitGo sep s ≠ [] := by
  simp only [splitGo, splitGoF]
  cases findOcc sep s <;> simp

/-! ## Lemmas on the error map -/

theorem mapLookup_insert_self (m : ErrMap) (k : Int) (v : List Char) :
    mapLookup (mapInsert m k v) k = some v := by
  simp [mapLookup, mapInsert, List.find?]

theorem mapLookup_insert_ne (m : ErrMap) {k k' : Int} (v : List Char) (h : k' ≠ k) :
    mapLookup (mapInsert m k v) k' = mapLookup m k' := by
  simp [mapLookup, mapInsert, List.find?, h, Ne.symm h]

/-! ## Lemmas on the raw store -/

theorem filter_length_map_keyfix {α : Type} (k : RawKey) (v : α) (k' : RawKey) :
    ∀ s : Store α,
      ((s.map (fun p => if p.1 = k then (k, v) else p)).filter
        (fun p => decide (p.1 = k'))).length =
      (s.filter (fun p => decide (p.1 = k'))).length := by
  intro s
  induction s with
  | nil => rfl
  | cons p ps ih =>
    simp only [List.map_cons, List.filter_cons]
    have hkey : (decide ((if p.1 = k then (k, v) else p).1 = k')) = decide (p.1 = k') := by
      rcases eq_or_ne p.1 k with hp | hp
      · subst hp; simp
      · simp [hp]
    rw [hkey]
    by_cases hpk : p.1 = k' <;> simp [hpk, ih]

theorem countPerKey_upsert_of_contains {α : Type} {s : Store α} {k : RawKey}
    (v : α) (h : containsKey s k = true) (k' : RawKey) :
    countPerKey (upsert s k v) k' = countPerKey s k' := by
  simp only [upsert, h, if_true, countPerKey]
  exact filter_length_map_keyfix k v k' s

theorem countPerKey_eq_zero_of_not_contains {α : Type} {s : Store α} {k : RawKey}
    (h : containsKey s k = false) : countPerKey s k = 0 := by
  induction s with
  | nil => rfl
  | cons p ps ih =>
    simp only [containsKey, List.any_cons, Bool.or_eq_false_iff,
      decide_eq_false_iff_not] at h
    simp only [countPerKey, List.filter_cons]
    rw [if_neg (by simpa using h.1)]
    exact ih (by simpa [containsKey] using h.2)

theorem countPerKey_upsert_of_not_contains {α : Type} {s : Store α} {k : RawKey}
    (v : α) (h : containsKey s k = false) (k' : RawKey) :
    countPerKey (upsert s k v) k' =
      countPerKey s k' + (if k' = k then 1 else 0) := by
  simp only [upsert, h, Bool.false_eq_true, if_false]
  by_cases hk : k' = k <;>
    simp [countPerKey, List.filter_append, hk, List.filter, Ne.symm]

theorem containsKey_upsert_self {α : Type} (s : Store α) (k : RawKey) (v : α) :
    containsKey (upsert s k v) k = true := by
  simp only [upsert]
  by_cases h : containsKey s k
  · simp only [h, if_true]
    simp only [containsKey, List.any_eq_true, decide_eq_true_eq] at h ⊢
    rcases h with ⟨p, hmem, hpk⟩
    exact ⟨(k, v), List.mem_map.mpr ⟨p, hmem, by simp [hpk]⟩, rfl⟩
  · simp only [h, Bool.false_eq_true, if_false]
    simp [containsKey]

theorem containsKey_upsert_mono {α : Type} {s : Store α} {k' : RawKey}
    (k : RawKey) (v : α) (h : containsKey s k' = true) :
    containsKey (upsert s k v) k' = true := by
  simp only [upsert]
  by_cases hc : containsKey s k
  · simp only [hc, if_true]
    simp only [containsKey, List.any_eq_true, decide_eq_true_eq] at h ⊢
    rcases h with ⟨p, hmem, hpk⟩
    by_cases hp : p.1 = k
    · exact ⟨(k, v), List.mem_map.mpr ⟨p, hmem, by simp [hp]⟩, by simp [← hpk, hp]⟩
    · exact ⟨p, List.mem_map.mpr ⟨p, hmem, by simp [hp]⟩, hpk⟩
  · simp only [hc, Bool.false_eq_true, if_false]
    simp only [containsKey, List.any_append, Bool.or_eq_true]
    exact Or.inl h

theorem containsKey_applyWrites_mono {α : Type} {s : Store α} {k : RawKey}
    (ws : List (RawKey × α)) (h : containsKey s k = true) :
    containsKey (applyWrites s ws) k = true := by
  induction ws generalizing s with
  | nil => exact h
  | cons w ws ih => exact ih (containsKey_upsert_mono w.1 w.2 h)

theorem containsKey_applyWrites_of_mem {α : Type} {s : Store α}
    {ws : List (RawKey × α)} {w : RawKey × α} (h : w ∈ ws) :
    containsKey (applyWrites s ws) w.1 = true := by
  induction ws generalizing s with
  | nil => cases h
  | cons w0 ws ih =>
    rcases List.mem_cons.mp h with h0 | hmem
    · subst h0
      exact containsKey_applyWrites_mono ws (containsKey_upsert_self s w.1 w.2)
    · exact ih hmem

theorem countPerKey_applyWrites_of_all_contains {α : Type} {s : Store α}
    {ws : List (RawKey × α)} (h : ∀ w ∈ ws, containsKey s w.1 = true)
    (k' : RawKey) : countPerKey (applyWrites s ws) k' = countPerKey s k' := by
  induction ws generalizing s with
  | nil => rfl
  | cons w ws ih =>
    have hw : containsKey s w.1 = true := h w (List.mem_cons_self _ _)
    have hrest : ∀ w' ∈ ws, containsKey (upsert s w.1 w.2) w'.1 = true :=
      fun w' hmem => containsKey_upsert_mono w.1 w.2 (h w' (List.mem_cons_of_mem _ hmem))
    calc countPerKey (applyWrites (upsert s w.1 w.2) ws) k'
        = countPerKey (upsert s w.1 w.2) k' := ih hrest
      _ = countPerKey s k' := countPerKey_upsert_of_contains w.2 hw k'

theorem countPerKey_applyWrites_le_one {α : Type} {s : Store α}
    (ws : List (RawKey × α)) (h : ∀ k, countPerKey s k ≤ 1) :
    ∀ k, countPerKey (applyWrites s ws) k ≤ 1 := by
  induction ws generalizing s with
  | nil => exact h
  | cons w ws ih =>
    apply ih
    intro k
    by_cases hc : containsKey s w.1
    · rw [countPerKey_upsert_of_contains w.2 hc k]
      exact h k
    · rw [countPerKey_upsert_of_not_contains w.2 (by simpa using hc) k]
      by_cases hk : k = w.1
      · have h0 : countPerKey s w.1 = 0 :=
          countPerKey_eq_zero_of_not_contains (by simpa using hc)
        simp [hk, h0]
      · simp [hk]
        exact h k

/-! ## Lemmas on the modelled execution loop -/

theorem executeEvents_fst_of_nonfatal (params : List Char) :
    ∀ (es : List FetchEvent) (st : CollectorState) (store : Store (List (List Char))),
    (∀ e ∈ es, disposition e.statusCode ≠ .fatal) →
    (executeEvents params st store es).1 = none := by
  intro es
  induction es with
  | nil => intro st store _; rfl
  | cons e es ih =>
    intro st store h
    have hd := h e (List.mem_cons_self _ _)
    cases hde : disposition e.statusCode with
    | success =>
      simp only [executeEvents, hde]
      exact ih _ _ (fun x hx => h x (List.mem_cons_of_mem _ hx))
    | skipItem =>
      simp only [executeEvents, hde]
      exact ih _ _ (fun x hx => h x (List.mem_cons_of_mem _ hx))
    | fatal => exact absurd hde hd

theorem executeEvents_contains_mono (params : List Char) :
    ∀ (es : List FetchEvent) (st : CollectorState) (store : Store (List (List Char)))
      (k : RawKey), containsKey store k = true →
    containsKey (executeEvents params st store es).2.2 k = true := by
  intro es
  induction es with
  | nil => intro st store k h; exact h
  | cons e es ih =>
    intro st store k h
    cases hde : disposition e.statusCode with
    | success =>
      simp only [executeEvents, hde]
      exact ih _ _ _ (containsKey_upsert_mono _ _ h)
    | skipItem =>
      simp only [executeEvents, hde]
      exact ih _ _ _ h
    | fatal =>
      simp only [executeEvents, hde]
      exact h

theorem executeEvents_success_persisted (params : List Char) :
    ∀ (es : List FetchEvent) (st : CollectorState) (store : Store (List (List Char))),
    (∀ x ∈ es, disposition x.statusCode ≠ .fatal) →
    ∀ e ∈ es, disposition e.statusCode = .success →
    containsKey (executeEvents params st store es).2.2 (eventKey params e) = true := by
  intro es
  induction es with
  | nil => intro st store _ e he; cases he
  | cons e0 es ih =>
    intro st store h e he hsucc
    rcases List.mem_cons.mp he with h0 | hmem
    · subst h0
      simp only [executeEvents, hsucc]
      exact executeEvents_contains_mono params es _ _ _ (containsKey_upsert_self _ _ _)
    · cases hd0 : disposition e0.statusCode with
      | success =>
        simp only [executeEvents, hd0]
        exact ih _ _ (fun x hx => h x (List.mem_cons_of_mem _ hx)) e hmem hsucc
      | skipItem =>
        simp only [executeEvents, hd0]
        exact ih _ _ (fun x hx => h x (List.mem_cons_of_mem _ hx)) e hmem hsucc
      | fatal => exact absurd hd0 (h e0 (List.mem_cons_self _ _))

/-! ## Claim theorems -/

/-- Claim C9: the job-extraction time normalization maps a timestamp pointer
to nil exactly when it is nil, is Go's zero time, or has year at most 0
(including the year-0000 value produced by JSON-parsing
`"0000-01-01T00:00:00Z"`, which is not Go's zero time); every other
timestamp is preserved unchanged, and `StartedAt` and `CompletedAt` are
normalized independently. -/
theorem c9_time_normalization :
    (∀ job : GithubJob,
      extractJobTimes job = (timeOrNil job.startedAt, timeOrNil job.completedAt)) ∧
    (∀ t : Option GoTime, timeOrNil t = none ↔
      t = none ∨ ∃ x, t = some x ∧ (x.isZero = true ∨ x.year ≤ 0)) ∧
    (∀ (t : Option GoTime) (x : GoTime), timeOrNil t = some x ↔
      t = some x ∧ x.isZero = false ∧ 0 < x.year) ∧
    year0Time.isZero = false ∧
    timeOrNil (some year0Time) = none ∧
    timeOrNil (some goZeroTime) = none ∧
    timeOrNil (some validTime) = some validTime := by
  refine ⟨?_, ?_, ?_, by decide, by decide, by decide, by decide⟩
  · intro job
    cases hs : job.startedAt <;> cases hc : job.completedAt <;>
      simp [extractJobTimes, timeOrNil, hs, hc]
  · intro t
    cases t with
    | none => simp [timeOrNil]
    | some x =>
      by_cases hz : x.isZero <;> by_cases hy : 0 < x.year <;>
        (simp [timeOrNil, hz, hy]; try omega)
  · intro t x
    cases t with
    | none => simp [timeOrNil]
    | some y =>
      by_cases hz : y.isZero
      · have hL : timeOrNil (some y) = none := by simp [timeOrNil, hz]
        rw [hL]
        constructor
        · intro h
          exact Option.noConfusion h
        · rintro ⟨hyx, hzf, _⟩
          injection hyx with hyx
          subst hyx
          rw [hz] at hzf
          cases hzf
      · by_cases hy : 0 < y.year
        · have hL : timeOrNil (some y) = some y := by simp [timeOrNil, hz, hy]
          rw [hL]
          constructor
          · intro h
            injection h with h
            subst h
            exact ⟨rfl, by simpa using hz, hy⟩
          · rintro ⟨hyx, _, _⟩
            exact hyx
        · have hL : timeOrNil (some y) = none := by simp [timeOrNil, hz, hy]
          rw [hL]
          constructor
          · intro h
            exact Option.noConfusion h
          · rintro ⟨hyx, _, hy'⟩
            injection hyx with hyx
            subst hyx
            exact absurd hy' hy

/-- Claim C10: the subtask display status is FAILED if `isFailed` is truthy,
else COMPLETED if `finishedAt` is truthy, else RUNNING if `beganAt` is
truthy, else PENDING; failure takes precedence over completion, and the
`PipelineOverview` and `SubtaskProgress` components derive the same status. -/
theorem c10_subtask_status_precedence :
    ∀ d : SubtaskDetail,
    subtaskProgressStatus d = pipelineOverviewStatus d ∧
    (truthyBool d.isFailed = true → pipelineOverviewStatus d = "FAILED".data) ∧
    (truthyBool d.isFailed = false → truthyStr d.finishedAt = true →
      pipelineOverviewStatus d = "COMPLETED".data) ∧
    (truthyBool d.isFailed = false → truthyStr d.finishedAt = false →
      truthyStr d.beganAt = true → pipelineOverviewStatus d = "RUNNING".data) ∧
    (truthyBool d.isFailed = false → truthyStr d.finishedAt = false →
      truthyStr d.beganAt = false → pipelineOverviewStatus d = "PENDING".data) := by
  intro d
  refine ⟨rfl, ?_, ?_, ?_, ?_⟩
  · intro h1
    simp [pipelineOverviewStatus, h1]
  · intro h1 h2
    simp [pipelineOverviewStatus, h1, h2]
  · intro h1 h2 h3
    simp [pipelineOverviewStatus, h1, h2, h3]
  · intro h1 h2 h3
    simp [pipelineOverviewStatus, h1, h2, h3]

/-- Witness for claim C10: a subtask with both `isFailed` and `finishedAt`
set is shown as FAILED by both components. -/
theorem c10_witness :
    subtaskProgressStatus
        { isFailed := some true, finishedAt := some "2024-01-01".data,
          beganAt := some "2024-01-01".data }
      = pipelineOverviewStatus
        { isFailed := some true, finishedAt := some "2024-01-01".data,
          beganAt := some "2024-01-01".data } ∧
    pipelineOverviewStatus
        { isFailed := some true, finishedAt := some "2024-01-01".data,
          beganAt := some "2024-01-01".data } = "FAILED".data := by
  have h := c10_subtask_status_precedence
    { isFailed := some true, finishedAt := some "2024-01-01".data,
      beganAt := some "2024-01-01".data }
  exact ⟨h.1, h.2.1 (by decide)⟩

/-- Claim C8: re-collection is idempotent on the raw store — applying one
run's page writes a second time leaves the number of live records per key
unchanged (an upsert replaces, never appends), and the at-most-one-record
per-key invariant is preserved. -/
theorem c8_idempotent_recollection {α : Type} (store : Store α)
    (ws : List (RawKey × α)) :
    (∀ k, countPerKey (applyWrites (applyWrites store ws) ws) k
      = countPerKey (applyWrites store ws) k) ∧
    ((∀ k, countPerKey store k ≤ 1) → ∀ k, countPerKey (applyWrites store ws) k ≤ 1) := by
  constructor
  · intro k
    apply countPerKey_applyWrites_of_all_contains
    intro w hw
    exact containsKey_applyWrites_of_mem hw
  · intro h
    exact countPerKey_applyWrites_le_one ws h

/-- Witness for claim C8 at a concrete store and write list. -/
theorem c8_witness :
    countPerKey (applyWrites (applyWrites ([] : Store Nat) [(c8Key, 5)]) [(c8Key, 5)]) c8Key
      = countPerKey (applyWrites ([] : Store Nat) [(c8Key, 5)]) c8Key ∧
    countPerKey (applyWrites ([] : Store Nat) [(c8Key, 5)]) c8Key ≤ 1 := by
  have h := c8_idempotent_recollection ([] : Store Nat) [(c8Key, 5)]
  exact ⟨h.1 c8Key, h.2 (fun _ => Nat.zero_le _) c8Key⟩

/-- Claim C1 (failing direction): for an `Execute` error in the
retry-exhaustion format, `CollectJobs` does *not* return nil — the
retry-exhaustion branch falls through to the final `return err` with the
original non-nil error, so the modelled stage status is FAILED, contradicting
the claimed downgrade to partial success (and the code's own comment at
line 202). -/
theorem c1_retry_error_still_returned :
    retryMatch retryErrMsg = true ∧
    (handleExecuteError initState (some retryErrMsg)).1 = some retryErrMsg ∧
    stageStatus (handleExecuteError initState (some retryErrMsg)).1 = .FAILED := by
  exact ⟨by decide, rfl, rfl⟩

/-- Claim C4 (failing direction): for 3 input runs of 2 successful pages of
100 items each, exactly 6 raw records are persisted and nothing is skipped,
but the completion summary's total (`totalRuns`, incremented once per HTTP
response in `AfterResponse`) is 6, not the 3 input items the claim states. -/
theorem c4_total_counts_responses :
    (collectJobsOutcome [] initState [] c4Events).1 = none ∧
    (collectJobsOutcome [] initState [] c4Events).2.2.length = 6 ∧
    (collectJobsOutcome [] initState [] c4Events).2.1.failedRuns = [] ∧
    (collectJobsOutcome [] initState [] c4Events).2.1.totalRuns = 6 ∧
    ¬ (collectJobsOutcome [] initState [] c4Events).2.1.totalRuns = 3 := by
  refine ⟨rfl, rfl, rfl, rfl, by decide⟩

/-- Claim C6: `AfterResponse` on a 5xx response reads the body, truncates it
to 300 bytes plus a `"... (truncated)"` suffix when it exceeds that cap,
records the current run as failed under a reason containing the status code
and the (possibly truncated) body, logs a warning, and returns nil; the
response is an item skip, not a stage failure. -/
theorem c6_5xx_truncated_and_skipped :
    ∀ (st : CollectorState) (status : Nat) (body : List Char),
    500 ≤ status →
    (afterResponse st ⟨status, some body⟩).1 = none ∧
    (afterResponse st ⟨status, some body⟩).2.failedRuns
      = st.failedRuns ++ [st.currentRunId] ∧
    (afterResponse st ⟨status, some body⟩).2.warnLogs = st.warnLogs + 1 ∧
    (body.length ≤ 300 →
      mapLookup (afterResponse st ⟨status, some body⟩).2.failedRunsErrors st.currentRunId
        = some (natChars status ++ serverErrorTag ++ body)) ∧
    (300 < body.length →
      mapLookup (afterResponse st ⟨status, some body⟩).2.failedRunsErrors st.currentRunId
        = some (natChars status ++ serverErrorTag ++ (body.take 300 ++ truncSuffix)) ∧
      (body.take 300).length = 300) ∧
    disposition status = .skipItem := by
  intro st status body h500
  have hne : ¬ status = 404 := by omega
  have hstep : afterResponse st ⟨status, some body⟩
      = (none, { st with
          totalRuns := st.totalRuns + 1
          failedRuns := st.failedRuns ++ [st.currentRunId]
          failedRunsErrors := mapInsert st.failedRunsErrors st.currentRunId
            (natChars status ++ serverErrorTag ++
              (if body.length > 300 then body.take 300 ++ truncSuffix else body))
          warnLogs := st.warnLogs + 1 }) := by
    simp only [afterResponse]
    rw [if_neg hne, if_pos h500]
  rw [hstep]
  refine ⟨rfl, rfl, rfl, ?_, ?_, ?_⟩
  · intro hle
    have : ¬ body.length > 300 := by omega
    rw [if_neg this]
    exact mapLookup_insert_self _ _ _
  · intro hgt
    rw [if_pos hgt]
    refine ⟨mapLookup_insert_self _ _ _, ?_⟩
    simp only [List.length_take]
    omega
  · simp only [disposition]
    rw [if_neg (by omega), if_pos (Or.inr h500)]

/-- Witness for claim C6: a 502 with a short body is recorded and skipped. -/
theorem c6_witness :
    (afterResponse initState ⟨502, some "oops".data⟩).1 = none ∧
    (afterResponse initState ⟨502, some "oops".data⟩).2.failedRuns = [(0 : Int)] ∧
    mapLookup (afterResponse initState ⟨502, some "oops".data⟩).2.failedRunsErrors 0
      = some (natChars 502 ++ serverErrorTag ++ "oops".data) ∧
    disposition 502 = .skipItem := by
  have h := c6_5xx_truncated_and_skipped initState 502 ("oops".data) (by omega)
  exact ⟨h.1, h.2.1, h.2.2.2.1 (by decide), h.2.2.2.2.2⟩

/-- Claim C7: a 4xx response other than 404 is not downgraded by the
`AfterResponse` hook (the tracking state records nothing), and under the
spec's default policy such a response is fatal: the collection run returns a
non-nil error and the stage is FAILED. -/
theorem c7_other_4xx_fatal :
    ∀ (st : CollectorState) (e : FetchEvent) (params : List Char)
      (store : Store (List (List Char))) (rest : List FetchEvent),
    400 ≤ e.statusCode → e.statusCode < 500 → e.statusCode ≠ 404 →
    (afterResponse st ⟨e.statusCode, e.body⟩).1 = none ∧
    (afterResponse st ⟨e.statusCode, e.body⟩).2
      = { st with totalRuns := st.totalRuns + 1 } ∧
    disposition e.statusCode = .fatal ∧
    (collectJobsOutcome params st store (e :: rest)).1 = some clientFatalError ∧
    stageStatus (collectJobsOutcome params st store (e :: rest)).1 = .FAILED := by
  intro st e params store rest h4 h5 h404
  have hstepAll : ∀ s : CollectorState, afterResponse s ⟨e.statusCode, e.body⟩
      = (none, { s with totalRuns := s.totalRuns + 1 }) := by
    intro s
    simp only [afterResponse]
    rw [if_neg h404, if_neg (by omega)]
  have hdisp : disposition e.statusCode = .fatal := by
    simp only [disposition]
    rw [if_neg (by omega), if_neg (by omega)]
  have hexec : executeEvents params st store (e :: rest)
      = (some clientFatalError,
          { st with currentRunId := e.runId, totalRuns := st.totalRuns + 1 }, store) := by
    simp only [executeEvents, hdisp]
    rw [hstepAll { st with currentRunId := e.runId }]
  have hretryneg : retryMatch clientFatalError = false := by decide
  have houtcome : (collectJobsOutcome params st store (e :: rest)).1
      = some clientFatalError := by
    simp only [collectJobsOutcome, hexec, handleExecuteError, hretryneg,
      Bool.false_eq_true, if_false]
  refine ⟨?_, ?_, hdisp, houtcome, ?_⟩
  · rw [hstepAll st]
  · rw [hstepAll st]
  · rw [houtcome]
    rfl

/-- Witness for claim C7: a 401 response fails the stage without being
recorded as a skip. -/
theorem c7_witness :
    (afterResponse initState ⟨401, none⟩).2.failedRuns = [] ∧
    disposition 401 = .fatal ∧
    stageStatus (collectJobsOutcome [] initState []
      [{ runId := 1, page := 1, statusCode := 401, body := none, items := [] }]).1
      = .FAILED := by
  have h := c7_other_4xx_fatal initState
    { runId := 1, page := 1, statusCode := 401, body := none, items := [] }
    [] [] [] (by decide) (by decide) (by decide)
  refine ⟨?_, h.2.2.1, h.2.2.2.2⟩
  rw [h.2.1]
  rfl

/-- Claim C2: `AfterResponse` on a 404 records the current run in the
failed-runs list with reason `"404 Not Found - Run likely deleted"`, logs a
warning and returns nil; a 404 is an item skip, and a run whose responses
are all non-fatal ends with a nil error, stage status COMPLETED, and every
successful page still persisted. -/
theorem c2_404_skip_and_stage_completes :
    ∀ (st : CollectorState) (body : Option (List Char)) (params : List Char)
      (store : Store (List (List Char))) (events : List FetchEvent),
    (afterResponse st ⟨404, body⟩).1 = none ∧
    (afterResponse st ⟨404, body⟩).2.failedRuns
      = st.failedRuns ++ [st.currentRunId] ∧
    mapLookup (afterResponse st ⟨404, body⟩).2.failedRunsErrors st.currentRunId
      = some reason404 ∧
    (afterResponse st ⟨404, body⟩).2.warnLogs = st.warnLogs + 1 ∧
    disposition 404 = .skipItem ∧
    ((∀ e ∈ events, disposition e.statusCode ≠ .fatal) →
      (collectJobsOutcome params st store events).1 = none ∧
      stageStatus (collectJobsOutcome params st store events).1 = .COMPLETED ∧
      ∀ e ∈ events, disposition e.statusCode = .success →
        containsKey (collectJobsOutcome params st store events).2.2 (eventKey params e)
          = true) := by
  intro st body params store events
  have hstep : afterResponse st ⟨404, body⟩
      = (none, { st with
          totalRuns := st.totalRuns + 1
          failedRuns := st.failedRuns ++ [st.currentRunId]
          failedRunsErrors := mapInsert st.failedRunsErrors st.currentRunId reason404
          warnLogs := st.warnLogs + 1 }) := by
    simp [afterResponse]
  refine ⟨by rw [hstep], by rw [hstep], ?_, by rw [hstep], by decide, ?_⟩
  · rw [hstep]
    exact mapLookup_insert_self _ _ _
  · intro hev
    have hr : (executeEvents params st store events).1 = none :=
      executeEvents_fst_of_nonfatal params events st store hev
    have h1 : (collectJobsOutcome params st store events).1 = none := by
      simp only [collectJobsOutcome, hr, handleExecuteError]
    refine ⟨h1, by rw [h1]; rfl, ?_⟩
    intro e he hsucc
    have h2 : (collectJobsOutcome params st store events).2.2
        = (executeEvents params st store events).2.2 := rfl
    rw [h2]
    exact executeEvents_success_persisted params events st store hev e he hsucc

/-- Witness for claim C2: a run with one successful page and one 404 ends
COMPLETED with the successful page persisted. -/
theorem c2_witness :
    (collectJobsOutcome [] initState [] c2Events).1 = none ∧
    stageStatus (collectJobsOutcome [] initState [] c2Events).1 = .COMPLETED ∧
    containsKey (collectJobsOutcome [] initState [] c2Events).2.2 (eventKey [] okEvent1)
      = true := by
  have h := c2_404_skip_and_stage_completes initState none [] [] c2Events
  rcases h.2.2.2.2.2 (by decide) with ⟨ha, hb, hc⟩
  exact ⟨ha, hb, hc okEvent1 (by decide) (by decide)⟩

/-- Claim C3: with `IsIncremental()` true and a non-nil `since = t`, the
cursor yields exactly the rows matching the repo/connection clause whose
`github_updated_at` is strictly after `t`; a row at or before the watermark
is not yielded and (run ids being unique) gets no HTTP fetch sequence; in
full mode, or with a nil `since`, no time filter is applied. -/
theorem c3_incremental_watermark_filter :
    ∀ (table : List GithubRunRow) (opts : CollectOptions) (t : Int)
      (row : GithubRunRow),
    (row ∈ cursorRows table opts true (some t) ↔
      row ∈ table ∧ row.repoId = opts.githubId ∧ row.connectionId = opts.connectionId ∧
        t < row.githubUpdatedAt) ∧
    (row ∈ table → row.githubUpdatedAt ≤ t →
      row ∉ cursorRows table opts true (some t)) ∧
    ((table.map (·.id)).Nodup → row ∈ table → row.githubUpdatedAt ≤ t →
      row.id ∉ fetchSequenceIds table opts true (some t)) ∧
    (∀ since, cursorRows table opts false since = table.filter (baseWhere opts)) ∧
    cursorRows table opts true none = table.filter (baseWhere opts) := by
  intro table opts t row
  have hfilter : ∀ r : GithubRunRow, jobsCursorFilter opts true (some t) r = true ↔
      (r.repoId = opts.githubId ∧ r.connectionId = opts.connectionId ∧
        t < r.githubUpdatedAt) := by
    intro r
    simp [jobsCursorFilter, baseWhere, and_assoc]
  refine ⟨?_, ?_, ?_, ?_, ?_⟩
  · rw [cursorRows, List.mem_filter, hfilter row]
  · intro hmem hle hin
    have hf := (List.mem_filter.mp hin).2
    rw [hfilter row] at hf
    omega
  · intro hnd hmem hle hin
    rcases List.mem_map.mp hin with ⟨r2, hr2mem, hid⟩
    have hr2 := List.mem_filter.mp hr2mem
    have heq : r2 = row := List.inj_on_of_nodup_map hnd hr2.1 hmem hid
    have hf := (hfilter r2).mp hr2.2
    rw [heq] at hf
    omega
  · intro since
    have hfn : jobsCursorFilter opts false since = baseWhere opts := by
      funext r
      simp [jobsCursorFilter]
    rw [cursorRows, hfn]
  · have hfn : jobsCursorFilter opts true none = baseWhere opts := by
      funext r
      simp [jobsCursorFilter]
    rw [cursorRows, hfn]

/-- Witness for claim C3: with watermark 10, the row updated at 20 is
yielded, the row updated at 10 is not and gets no fetch sequence, and the
full-mode cursor yields both rows. -/
theorem c3_witness :
    c3RowFresh ∈ cursorRows c3Table c3Opts true (some 10) ∧
    c3RowStale ∉ cursorRows c3Table c3Opts true (some 10) ∧
    c3RowStale.id ∉ fetchSequenceIds c3Table c3Opts true (some 10) ∧
    cursorRows c3Table c3Opts false (some 10) = c3Table := by
  have h1 := c3_incremental_watermark_filter c3Table c3Opts 10 c3RowFresh
  have h2 := c3_incremental_watermark_filter c3Table c3Opts 10 c3RowStale
  refine ⟨h1.1.mpr (by decide), h2.2.1 (by decide) (by decide),
    h2.2.2.1 (by decide) (by decide) (by decide), ?_⟩
  rw [h1.2.2.2.1 (some 10)]
  decide

/-- Claim C5: in a retry-exceeded message containing `"/actions/runs/"`, the
parsed run-id string is the segment between the first `"/actions/runs/"` and
the following `"/"`; whenever that parsed string is non-empty, the retry
failure reason is recorded under the sentinel key 0, and no other key of the
map — in particular not the parsed run's own id — is changed. -/
theorem c5_sentinel_key_and_parse (st : CollectorState) (pre mid post : List Char)
    (hfirst : findOcc runsSep (pre ++ runsSep ++ mid ++ '/' :: post) = some pre.length)
    (hmid : '/' ∉ mid) :
    parseRunId (pre ++ runsSep ++ mid ++ '/' :: post) = mid ∧
    (retryMatch (pre ++ runsSep ++ mid ++ '/' :: post) = true → mid ≠ [] →
      mapLookup (handleExecuteError st
          (some (pre ++ runsSep ++ mid ++ '/' :: post))).2.failedRunsErrors 0
        = some (retryFailureTag ++ (pre ++ runsSep ++ mid ++ '/' :: post)) ∧
      ∀ k : Int, k ≠ 0 →
        mapLookup (handleExecuteError st
            (some (pre ++ runsSep ++ mid ++ '/' :: post))).2.failedRunsErrors k
          = mapLookup st.failedRunsErrors k) := by
  have hsepne : runsSep ≠ [] := by decide
  have hslash : slashSep = ['/'] := by decide
  have htake : (pre ++ runsSep ++ mid ++ '/' :: post).take pre.length = pre := by
    have h1 : pre ++ runsSep ++ mid ++ '/' :: post
        = pre ++ (runsSep ++ (mid ++ '/' :: post)) := by
      simp [List.append_assoc]
    rw [h1]
    exact List.take_left pre _
  have hdrop : (pre ++ runsSep ++ mid ++ '/' :: post).drop (pre.length + runsSep.length)
      = mid ++ '/' :: post := by
    have h1 : pre ++ runsSep ++ mid ++ '/' :: post
        = (pre ++ runsSep) ++ (mid ++ '/' :: post) := by
      simp [List.append_assoc]
    rw [h1]
    have h2 : pre.length + runsSep.length = (pre ++ runsSep).length := by simp
    rw [h2]
    exact List.drop_left _ _
  have hsplit1 : splitGo runsSep (pre ++ runsSep ++ mid ++ '/' :: post)
      = pre :: splitGo runsSep (mid ++ '/' :: post) := by
    rw [splitGo_of_some hsepne hfirst, htake, hdrop]
  have hsecond :
      (splitGo slashSep ((splitGo runsSep (mid ++ '/' :: post)).getD 0 [])).getD 0 []
        = mid := by
    cases hocc : findOcc runsSep (mid ++ '/' :: post) with
    | none =>
      rw [splitGo_of_none hocc]
      simp only [List.getD_cons_zero]
      have hf : findOcc ['/'] (mid ++ '/' :: post) = some mid.length :=
        findOcc_single_append post hmid
      rw [hslash, splitGo_of_some (by decide) hf]
      simp only [List.getD_cons_zero]
      exact List.take_left mid ('/' :: post)
    | some i =>
      have hge : mid.length ≤ i := by
        have hshape : runsSep = '/' :: "actions/runs/".data := by decide
        rw [hshape] at hocc
        exact findOcc_cons_ge hmid hocc
      rw [splitGo_of_some hsepne hocc]
      simp only [List.getD_cons_zero]
      rcases Nat.eq_or_lt_of_le hge with heq | hlt
      · rw [← heq]
        have htake2 : (mid ++ '/' :: post).take mid.length = mid := List.take_left mid _
        rw [htake2, hslash, splitGo_of_none (findOcc_single_none hmid)]
        simp only [List.getD_cons_zero]
      · obtain ⟨m, hm⟩ : ∃ m, i - mid.length = m + 1 := ⟨i - mid.length - 1, by omega⟩
        have htake2 : (mid ++ '/' :: post).take i = mid ++ '/' :: post.take m := by
          rw [List.take_append_eq_append_take]
          rw [List.take_of_length_le (by omega : mid.length ≤ i)]
          rw [hm, List.take_succ_cons]
        rw [htake2]
        have hf : findOcc ['/'] (mid ++ '/' :: post.take m) = some mid.length :=
          findOcc_single_append (post.take m) hmid
        rw [hslash, splitGo_of_some (by decide) hf]
        simp only [List.getD_cons_zero]
        exact List.take_left mid _
  have hcontains : containsSub (pre ++ runsSep ++ mid ++ '/' :: post) runsSep = true := by
    unfold containsSub
    rw [hfirst]
    rfl
  have hparse : parseRunId (pre ++ runsSep ++ mid ++ '/' :: post) = mid := by
    simp only [parseRunId, hcontains, if_true, hsplit1]
    have hlen : (pre :: splitGo runsSep (mid ++ '/' :: post)).length > 1 := by
      simp only [List.length_cons]
      have := List.length_pos.mpr (splitGo_ne_nil runsSep (mid ++ '/' :: post))
      omega
    rw [if_pos hlen]
    have hgd : (pre :: splitGo runsSep (mid ++ '/' :: post)).getD 1 []
        = (splitGo runsSep (mid ++ '/' :: post)).getD 0 [] := rfl
    rw [hgd]
    have hrp : (splitGo slashSep ((splitGo runsSep (mid ++ '/' :: post)).getD 0 [])).length
        > 0 := List.length_pos.mpr (splitGo_ne_nil _ _)
    rw [if_pos hrp]
    exact hsecond
  refine ⟨hparse, ?_⟩
  intro hretry hne
  have hupdate : (handleExecuteError st
      (some (pre ++ runsSep ++ mid ++ '/' :: post))).2.failedRunsErrors
      = mapInsert st.failedRunsErrors 0
          (retryFailureTag ++ (pre ++ runsSep ++ mid ++ '/' :: post)) := by
    simp only [handleExecuteError, hretry, if_true, hparse]
    rw [if_pos hne]
  refine ⟨?_, ?_⟩
  · rw [hupdate]
    exact mapLookup_insert_self _ _ _
  · intro k hk
    rw [hupdate]
    exact mapLookup_insert_ne _ _ hk

/-- Witness for claim C5: in a concrete retry-exceeded message the parsed
segment is `"12345"`, the reason lands under key 0, and key 7 is untouched. -/
theorem c5_witness :
    parseRunId c5Msg = c5Mid ∧
    mapLookup (handleExecuteError initState (some c5Msg)).2.failedRunsErrors 0
      = some (retryFailureTag ++ c5Msg) ∧
    mapLookup (handleExecuteError initState (some c5Msg)).2.failedRunsErrors 7
      = mapLookup initState.failedRunsErrors 7 := by
  have h := c5_sentinel_key_and_parse initState c5Pre c5Mid c5Post (by decide) (by decide)
  rcases h.2 (by decide) (by decide) with ⟨h0, hk⟩
  exact ⟨h.1, h0, hk 7 (by decide)⟩

end DevLake
